import Mathlib

/-!
Verification of the stacked-DRG PoRep core of this repository against its
natural-language specification.

The shallow embedding below translates the Rust sources:
  * storage-proofs/src/stacked/proof.rs (generate_layers,
    transform_and_replicate_layers, extract_and_invert_transform_layers,
    prove_layers),
  * storage-proofs/porep/src/stacked/vanilla/create_label.rs (create_label,
    create_label_exp, prefetch_nodes, compute_pages, build_pages,
    mlock/munlock),
  * storage-proofs-porep/src/stacked/vanilla/gpu_selector.rs (get_gpu_index).

Bytes are modelled as natural numbers (well-formed buffers carry values
below 256), machine integers as Nat with explicit truncation where the code
casts, fallible code as Except, and external collaborators (hash functions,
graph topology, the Pedersen commitment hash) as explicit function
parameters.  Definitions that embed repository code missing from the source
tree are marked `Modelled from the spec:` in their doc comment.
-/

set_option maxRecDepth 4000

namespace FilProofs

/-- NODE_SIZE from util.rs: every node label and data node is 32 bytes. -/
def NODE_SIZE : Nat := 32

/-- Little-endian integer value of a byte list (low byte first). -/
def leVal : List Nat → Nat
  | [] => 0
  | b :: bs => b + 256 * leVal bs

/-- The n little-endian bytes of v (low byte first); models Rust
`u64::to_le_bytes` (and, reversed, `to_be_bytes`), including the implicit
truncation of the value to n bytes. -/
def leBytes : Nat → Nat → List Nat
  | 0, _ => []
  | n + 1, v => v % 256 :: leBytes n (v / 256)

/-- The 8 bytes of `(node as u64).to_le_bytes()`. -/
def leBytes8 (v : Nat) : List Nat := leBytes 8 v

/-- The 8 bytes of `(node as u64).to_be_bytes()`. -/
def beBytes8 (v : Nat) : List Nat := (leBytes 8 v).reverse

/-- Order of the BLS12-381 scalar field Fr. -/
def frModulus : Nat :=
  52435875175126190479447740508185965837690552500527637822603658699938581184513

instance : NeZero frModulus := ⟨by decide⟩

/-- The scalar field Fr of BLS12-381 (spec glossary). -/
abbrev Fr := ZMod frModulus

/-- Modelled from the spec: `Domain::try_from_bytes` (not under src/) parses a
32-byte little-endian value as an Fr element and fails when the bytes do not
encode a field element (spec error kind EncodingError). -/
def tryFromBytes (b : List Nat) : Option Fr :=
  if b.length = 32 ∧ leVal b < frModulus then some ((leVal b : Nat) : Fr) else none

/-- Modelled from the spec: the canonical 32-byte little-endian serialization
of an Fr element (`AsRef::<[u8]>::as_ref` on a domain element). -/
def frToBytes (x : Fr) : List Nat := leBytes 32 x.val

/-- Modelled from the spec: the GraphIface / StackedBucketGraph topology (the
graph generator is an external collaborator; src/ only consumes it).  Parent
functions are pure and deterministic; `parents` has layout base ++ exp
(spec section 6). -/
structure GraphModel where
  size : Nat
  base_degree : Nat
  exp_degree : Nat
  base_parents : Nat → List Nat
  expanded_parents : Nat → List Nat

/-- `parents(x)` with layout `[base…, exp…]` (spec section 6). -/
def GraphModel.parents (g : GraphModel) (x : Nat) : List Nat :=
  g.base_parents x ++ g.expanded_parents x

/-- `degree() = d_base + d_exp`. -/
def GraphModel.degree (g : GraphModel) : Nat := g.base_degree + g.exp_degree

/-- The graph interface contract: the parent lists have the advertised
degrees (spec section 6). -/
def GraphModel.WF (g : GraphModel) : Prop :=
  ∀ x, (g.base_parents x).length = g.base_degree ∧
    (g.expanded_parents x).length = g.exp_degree

/-- The depth-robust-graph contract that base parents of a node are strictly
below it (spec glossary: base parent is always index-less than the node). -/
def GraphModel.BaseBelow (g : GraphModel) : Prop :=
  ∀ x, 0 < x → ∀ p ∈ g.base_parents x, p < x

/-- data_at_node from util.rs: the 32-byte slice of node v in a layer
buffer. -/
def data_at_node (buf : List Nat) (v : Nat) : List Nat :=
  (buf.drop (v * NODE_SIZE)).take NODE_SIZE

/-- data_at_node_offset from util.rs. -/
def data_at_node_offset (v : Nat) : Nat := v * NODE_SIZE

/-- The label-store step shared by both label paths: copy the 32-byte hash
output into the node's slot, then strip the two top bits of its last byte
(proof.rs lines 292-298; create_label.rs lines 44-51). -/
def store_label (buf : List Nat) (node : Nat) (hashOut : List Nat) : List Nat :=
  let start := data_at_node_offset node
  let buf1 := buf.take start ++ hashOut ++ buf.drop (start + NODE_SIZE)
  buf1.set (start + NODE_SIZE - 1)
    (Nat.land (buf1.getD (start + NODE_SIZE - 1) 0) 0x3F)

/-- The byte stream absorbed by the Blake2s hasher for one node in
generate_layers (proof.rs lines 253-289): the replica id, the 8-byte
little-endian node index, and for every node other than 0 the base-parent
labels read from the current layer followed, when expander parent data is
present, by the expander-parent labels read from the previous layer. -/
def blake_label_input (g : GraphModel) (replica_id : List Nat) (node : Nat)
    (encoding : List Nat) (exp_parents_data : Option (List Nat)) : List Nat :=
  let parents := g.parents node
  replica_id ++ leBytes8 node ++
    (if 0 < node then
      ((parents.take g.base_degree).map (data_at_node encoding)).flatten ++
        (match exp_parents_data with
          | some pd => ((parents.drop g.base_degree).map (data_at_node pd)).flatten
          | none => [])
    else [])

/-- One node of the inlined CreateKey loop of generate_layers: hash the label
input and store the masked result (proof.rs lines 262-299). -/
def generate_node (hash : List Nat → List Nat) (g : GraphModel)
    (replica_id : List Nat) (exp_parents_data : Option (List Nat))
    (encoding : List Nat) (node : Nat) : List Nat :=
  store_label encoding node (hash (blake_label_input g replica_id node encoding exp_parents_data))

/-- The `for node in 0..graph.size()` loop of generate_layers, processing
`rem` nodes starting at `node`. -/
def pass_nodes (hash : List Nat → List Nat) (g : GraphModel)
    (replica_id : List Nat) (exp_parents_data : Option (List Nat)) :
    List Nat → Nat → Nat → List Nat
  | enc, _, 0 => enc
  | enc, node, rem + 1 =>
      pass_nodes hash g replica_id exp_parents_data
        (generate_node hash g replica_id exp_parents_data enc node) (node + 1) rem

/-- One full layer pass of generate_layers over nodes 0..size. -/
def layer_pass (hash : List Nat → List Nat) (g : GraphModel)
    (replica_id : List Nat) (exp_parents_data : Option (List Nat))
    (enc : List Nat) : List Nat :=
  pass_nodes hash g replica_id exp_parents_data enc 0 g.size

/-- The layer loop of generate_layers (proof.rs lines 258-306): the single
`encoding` buffer is reused across layers, each completed layer is snapshotted
as the next layer's expander-parent data and pushed onto the stack.  The
disk-backed store is modelled as the in-memory snapshot list (store I/O is an
external collaborator). -/
def generate_layers_aux (hash : List Nat → List Nat) (g : GraphModel)
    (replica_id : List Nat) :
    Nat → List Nat → Option (List Nat) → List (List Nat)
  | 0, _, _ => []
  | n + 1, enc, expd =>
      let enc2 := layer_pass hash g replica_id expd enc
      enc2 :: generate_layers_aux hash g replica_id n enc2 (some enc2)

/-- generate_layers from proof.rs lines 238-315: the layer stack produced
from a zero-initialized buffer with no expander-parent data on layer 1. -/
def generate_layers (hash : List Nat → List Nat) (g : GraphModel)
    (replica_id : List Nat) (layers : Nat) : List (List Nat) :=
  generate_layers_aux hash g replica_id layers
    (List.replicate (g.size * NODE_SIZE) 0) none

/-- The 32-byte buffer of create_label (create_label.rs lines 26-28): the
big-endian node index in the first 8 bytes, the rest zero. -/
def sha_node_buffer (node : Nat) : List Nat :=
  beBytes8 node ++ List.replicate 24 0

/-- The byte stream absorbed by the SHA-256 hasher in create_label
(create_label.rs lines 25-42).  The trailing parent part is Modelled from the
spec: `StackedBucketGraph::copy_parents_data` is not under src/; per spec
section 4.1 step 4 it feeds the base-parent labels of the current layer in
`base_parents` order. -/
def sha_label_input (g : GraphModel) (replica_id : List Nat)
    (layer_labels : List Nat) (node : Nat) : List Nat :=
  replica_id ++ sha_node_buffer node ++
    (if 0 < node then
      ((g.base_parents node).map (data_at_node layer_labels)).flatten
    else [])

/-- The byte stream absorbed by the SHA-256 hasher in create_label_exp
(create_label.rs lines 62-79).  The parent part is Modelled from the spec:
`copy_parents_data_exp` is not under src/; per spec section 4.1 steps 4-5 it
feeds base-parent labels from the current layer then expander-parent labels
from the previous layer. -/
def sha_label_input_exp (g : GraphModel) (replica_id : List Nat)
    (exp_parents_data : List Nat) (layer_labels : List Nat) (node : Nat) :
    List Nat :=
  replica_id ++ sha_node_buffer node ++
    (if 0 < node then
      ((g.base_parents node).map (data_at_node layer_labels)).flatten ++
        ((g.expanded_parents node).map (data_at_node exp_parents_data)).flatten
    else [])

/-- create_label from create_label.rs lines 19-53: SHA-256 label derivation
for one node of the first layer, writing the masked digest into the layer
buffer. -/
def create_label (shaHash : List Nat → List Nat) (g : GraphModel)
    (replica_id : List Nat) (layer_labels : List Nat) (node : Nat) : List Nat :=
  store_label layer_labels node (shaHash (sha_label_input g replica_id layer_labels node))

/-- create_label_exp from create_label.rs lines 55-90: SHA-256 label
derivation for one node of a layer above the first. -/
def create_label_exp (shaHash : List Nat → List Nat) (g : GraphModel)
    (replica_id : List Nat) (exp_parents_data : List Nat)
    (layer_labels : List Nat) (node : Nat) : List Nat :=
  store_label layer_labels node
    (shaHash (sha_label_input_exp g replica_id exp_parents_data layer_labels node))

/-- The error kinds surfaced by the embedded operations (spec section 7).
Rust `assert!`/`unwrap` panics are modelled as errors of the matching kind. -/
inductive RErr where
  | invalidChallenge
  | encodingError
  | internalAssertion
  | assertFail
  deriving DecidableEq

/-- Modelled from the spec: Encoder, `encode(key, data) = key + data` in Fr
(spec section 2 item 8; encode.rs is not under src/). -/
def encode (key data : Fr) : Fr := key + data

/-- Modelled from the spec: Encoder, `decode(key, enc) = enc - key` in Fr. -/
def decode (key enc : Fr) : Fr := enc - key

/-- The per-node encoding loop of transform_and_replicate_layers (proof.rs
lines 369-382): zip the keystream with the 32-byte chunks of the data
buffer, parse each chunk as a field element (EncodingError on failure) and
replace it with the encoded node. -/
def encode_chunks : List Fr → List Nat → Except RErr (List Nat)
  | [], rest => .ok rest
  | k :: ks, data =>
      match tryFromBytes (data.take NODE_SIZE) with
      | none => .error .encodingError
      | some d =>
          (encode_chunks ks (data.drop NODE_SIZE)).map
            (fun rest => frToBytes (encode k d) ++ rest)

/-- The per-node decoding loop of extract_and_invert_transform_layers
(proof.rs lines 222-233). -/
def decode_chunks : List Fr → List Nat → Except RErr (List Nat)
  | [], rest => .ok rest
  | k :: ks, data =>
      match tryFromBytes (data.take NODE_SIZE) with
      | none => .error .encodingError
      | some d =>
          (decode_chunks ks (data.drop NODE_SIZE)).map
            (fun rest => frToBytes (decode k d) ++ rest)

/-- The keystream read of `encodings.encoding_at_last_layer().read_range(0..size)`:
the stored last-layer labels reinterpreted as field elements (DiskStore
deserialization is unchecked; labels are masked, hence in range). -/
def layer_keys (lastLayer : List Nat) (n : Nat) : List Fr :=
  (List.range n).map (fun i => ((leVal (data_at_node lastLayer i) : Nat) : Fr))

/-- extract_and_invert_transform_layers from proof.rs lines 206-236:
regenerate the layer stack, then decode the data buffer chunk-wise against
the last-layer keystream. -/
def extract_and_invert_transform_layers (hash : List Nat → List Nat)
    (g : GraphModel) (layers : Nat) (replica_id : List Nat)
    (data : List Nat) : Except RErr (List Nat) :=
  if layers = 0 then .error .assertFail
  else
    let encodings := generate_layers hash g replica_id layers
    decode_chunks (layer_keys (encodings.getLastD []) g.size) data

/-- A built Merkle tree: its leaves and its root. -/
structure MerkleTreeM where
  leaves : List Fr
  root : Fr
  deriving DecidableEq

/-- One level-up step of the binary Merkle tree: hash adjacent pairs. -/
def pair_up (h2 : Fr → Fr → Fr) : List Fr → List Fr
  | a :: b :: rest => h2 a b :: pair_up h2 rest
  | l => l

/-- Bottom-up Merkle root with an explicit level bound (the leaf count
bounds the number of levels). -/
def merkle_root_aux (h2 : Fr → Fr → Fr) : Nat → List Fr → Fr
  | 0, l => l.headD 0
  | n + 1, l => if l.length ≤ 1 then l.headD 0 else merkle_root_aux h2 n (pair_up h2 l)

/-- Modelled from the spec: MerkleBuilder (spec section 4.5; the merkle crate
is an external collaborator).  The `build_tree` closure of
transform_and_replicate_layers (proof.rs lines 332-342): parse the buffer
into 32-byte leaves (an unparsable leaf panics in `get_node(..).unwrap()`,
modelled as EncodingError) and build the binary tree bottom-up with the
external node hash. -/
def build_tree (h2 : Fr → Fr → Fr) (tree_data : List Nat) :
    Except RErr MerkleTreeM :=
  if tree_data.length % NODE_SIZE ≠ 0 then .error .assertFail
  else
    ((List.range (tree_data.length / NODE_SIZE)).mapM (fun i =>
        match tryFromBytes (data_at_node tree_data i) with
        | some v => Except.ok v
        | none => Except.error RErr.encodingError)).map
      (fun leaves => { leaves := leaves, root := merkle_root_aux h2 leaves.length leaves })

/-- Modelled from the spec: `gen_proof(i)` returns the sibling path
bottom-up together with the opened leaf (spec section 4.5). -/
def gen_path (h2 : Fr → Fr → Fr) : Nat → List Fr → Nat → List Fr
  | 0, _, _ => []
  | n + 1, l, i =>
      if l.length ≤ 1 then []
      else l.getD (i ^^^ 1) 0 :: gen_path h2 n (pair_up h2 l) (i / 2)

/-- A Merkle opening: the leaf and its sibling path. -/
structure MerkleProofM where
  leaf : Fr
  path : List Fr
  deriving DecidableEq

/-- `tree.gen_proof(i)` wrapped by `MerkleProof::new_from_proof`. -/
def gen_proof (h2 : Fr → Fr → Fr) (t : MerkleTreeM) (i : Nat) : MerkleProofM :=
  { leaf := t.leaves.getD i 0, path := gen_path h2 t.leaves.length t.leaves i }

/-- Modelled from the spec: `Encodings::column_hash(x)` (params.rs is not
under src/): the external column hash of the concatenated labels of node x
across all layers (spec section 4.3). -/
def column_hash (hcol : List Nat → Fr) (encodings : List (List Nat))
    (x : Nat) : Fr :=
  hcol ((encodings.map (fun layer => data_at_node layer x)).flatten)

/-- The `cs` column-digest buffer of transform_and_replicate_layers
(proof.rs lines 393-436): four contiguous worker chunks of `size / 4` nodes,
the last worker absorbing the remainder. -/
def column_bytes (hcol : List Nat → Fr) (encodings : List (List Nat))
    (n : Nat) : List Nat :=
  let npl := n / 4
  let worker := fun (s len : Nat) =>
    ((List.range len).map (fun j => frToBytes (column_hash hcol encodings (s + j)))).flatten
  worker 0 npl ++ worker npl npl ++ worker (2 * npl) npl ++ worker (3 * npl) (n - 3 * npl)

/-- Tau from params.rs (spec data model): the public commitments. -/
structure TauM where
  comm_d : Fr
  comm_r : Fr
  deriving DecidableEq

/-- PersistentAux from params.rs (spec data model). -/
structure PersistentAuxM where
  comm_c : Fr
  comm_r_last : Fr
  deriving DecidableEq

/-- TemporaryAux from params.rs (spec data model): the layer stack and the
three trees retained for proving. -/
structure TemporaryAuxM where
  encodings : List (List Nat)
  tree_c : MerkleTreeM
  tree_d : MerkleTreeM
  tree_r_last : MerkleTreeM
  deriving DecidableEq

/-- The full result of replication: the encoded replica bytes (the mutated
data buffer) together with the returned TransformedLayers triple. -/
structure ReplicateOutput where
  replica : List Nat
  tau : TauM
  p_aux : PersistentAuxM
  t_aux : TemporaryAuxM
  deriving DecidableEq

/-- transform_and_replicate_layers from proof.rs lines 317-475.  External
parameters: `hash` is the Blake2s label hasher, `hcol` the column hash,
`h2tree` the Merkle node hash of the instantiated Hasher, `hash2` the
Pedersen-like commitment combiner of `comm_r = H(comm_c || comm_r_last)`
(hash.rs is not under src/). -/
def transform_and_replicate_layers (hash : List Nat → List Nat)
    (hcol : List Nat → Fr) (h2tree hash2 : Fr → Fr → Fr) (g : GraphModel)
    (layers : Nat) (replica_id : List Nat) (data : List Nat)
    (data_tree : Option MerkleTreeM) : Except RErr ReplicateOutput :=
  if data.length ≠ g.size * NODE_SIZE then .error .assertFail
  else if layers = 0 then .error .assertFail
  else
    let encodings := generate_layers hash g replica_id layers
    let tree_d_e : Except RErr MerkleTreeM :=
      match data_tree with
      | some t => .ok t
      | none => build_tree h2tree data
    match tree_d_e with
    | .error e => .error e
    | .ok tree_d =>
      match encode_chunks (layer_keys (encodings.getLastD []) g.size) data with
      | .error e => .error e
      | .ok replica =>
        match build_tree h2tree replica with
        | .error e => .error e
        | .ok tree_r_last =>
          match build_tree h2tree (column_bytes hcol encodings g.size) with
          | .error e => .error e
          | .ok tree_c =>
              .ok { replica := replica,
                    tau := { comm_d := tree_d.root,
                             comm_r := hash2 tree_c.root tree_r_last.root },
                    p_aux := { comm_c := tree_c.root,
                               comm_r_last := tree_r_last.root },
                    t_aux := { encodings := encodings, tree_c := tree_c,
                               tree_d := tree_d, tree_r_last := tree_r_last } }

/-- Modelled from the spec: `TemporaryAux::domain_node_at_layer` (params.rs
is not under src/): read the 32-byte label of node x at 1-indexed `layer`
from the layer stack and parse it as a field element. -/
def domain_node_at_layer (encodings : List (List Nat)) (layer x : Nat) :
    Except RErr Fr :=
  match tryFromBytes (data_at_node (encodings.getD (layer - 1) []) x) with
  | some v => .ok v
  | none => .error .encodingError

/-- Modelled from the spec: `TemporaryAux::column(x)`, the ordered tuple of
the L labels of node x across the layer stack (spec data model,
`Column(x)`). -/
def column (encodings : List (List Nat)) (x : Nat) : Except RErr (List Fr) :=
  (List.range encodings.length).mapM
    (fun i => domain_node_at_layer encodings (i + 1) x)

/-- A column opening: the L labels of the node plus its TreeC opening
(`Column::into_proof`). -/
structure ColumnProofM where
  column : List Fr
  tree_proof : MerkleProofM
  deriving DecidableEq

/-- `t_aux.column(x)?.into_proof(&t_aux.tree_c)` from prove_layers. -/
def column_proof (h2 : Fr → Fr → Fr) (encodings : List (List Nat))
    (tree_c : MerkleTreeM) (x : Nat) : Except RErr ColumnProofM :=
  (column encodings x).map
    (fun col => { column := col, tree_proof := gen_proof h2 tree_c x })

/-- EncodingProof from encoding_proof.rs (spec data model): the challenged
node and the revealed parent labels. -/
structure EncodingProofM where
  node : Nat
  parents_data : List Fr
  deriving DecidableEq

/-- ReplicaColumnProof from params.rs (spec data model). -/
structure ReplicaColumnProofM where
  c_x : ColumnProofM
  drg_parents : List ColumnProofM
  exp_parents : List ColumnProofM
  deriving DecidableEq

/-- Proof from params.rs (spec data model): the per-challenge proof. -/
structure ProofM where
  comm_d_proofs : MerkleProofM
  replica_column_proofs : ReplicaColumnProofM
  comm_r_last_proof : MerkleProofM
  encoding_proofs : List EncodingProofM
  deriving DecidableEq

/-- The `.enumerate().map(..)` collection of prove_layers lines 156-169,
carried out with an explicit running index. -/
def parents_data_go (f : Nat → Nat → Except RErr Fr) :
    Nat → List Nat → Except RErr (List Fr)
  | _, [] => .ok []
  | i, p :: ps =>
      match f i p with
      | .error e => .error e
      | .ok v => (parents_data_go f (i + 1) ps).map (fun rest => v :: rest)

/-- The `parents_data` computation of prove_layers lines 144-170: on layer 1
the base-parent labels at layer 1; on a later layer, for each parent of
`graph.parents(challenge)` in order, the label at the current layer for the
first `base_degree` parents and the label at the previous layer for the
rest. -/
def parents_data (g : GraphModel) (encodings : List (List Nat))
    (layer challenge : Nat) : Except RErr (List Fr) :=
  if layer = 1 then
    parents_data_go (fun _ p => domain_node_at_layer encodings layer p) 0
      (g.base_parents challenge)
  else
    parents_data_go
      (fun i p =>
        if i < g.base_degree then domain_node_at_layer encodings layer p
        else domain_node_at_layer encodings (layer - 1) p)
      0 (g.parents challenge)

/-- The per-layer encoding-proof loop of prove_layers lines 128-192.
`verify` is `EncodingProof::verify` (encoding_proof.rs is not under src/;
per spec section 4.6 it re-derives the expected label), `pred` is the
external tapering predicate `include_challenge_at_layer`.  A layer excluded
by tapering contributes `none`; a failed self-check is the fatal
InternalAssertion panic. -/
def encoding_proof_at (verify : EncodingProofM → Fr → Option Fr → Bool)
    (pred : Nat → Nat → Bool) (g : GraphModel) (encodings : List (List Nat))
    (layers challenge_index challenge : Nat)
    (comm_d_leaf comm_r_last_leaf : Fr) (c_x_col : List Fr) (layer : Nat) :
    Except RErr (Option EncodingProofM) :=
  if pred layer challenge_index = false then .ok none
  else
    match parents_data g encodings layer challenge with
    | .error e => .error e
    | .ok pd =>
        let prf : EncodingProofM := { node := challenge, parents_data := pd }
        let encoded_node : Fr :=
          if layer = layers then comm_r_last_leaf else c_x_col.getD (layer - 1) 0
        let decoded_node : Option Fr :=
          if layer = layers then some comm_d_leaf else none
        if verify prf encoded_node decoded_node then .ok (some prf)
        else .error .internalAssertion

def encoding_proofs_loop (verify : EncodingProofM → Fr → Option Fr → Bool)
    (pred : Nat → Nat → Bool) (g : GraphModel) (encodings : List (List Nat))
    (layers challenge_index challenge : Nat)
    (comm_d_leaf comm_r_last_leaf : Fr) (c_x_col : List Fr) :
    Except RErr (List (Option EncodingProofM)) :=
  ((List.range layers).map (fun j => j + 1)).mapM
    (encoding_proof_at verify pred g encodings layers challenge_index challenge
      comm_d_leaf comm_r_last_leaf c_x_col)

/-- The per-challenge body of prove_layers lines 86-199: validate the
challenge (the two `assert!` panics are modelled as InvalidChallenge
errors), open TreeD and TreeR_last at the challenge, open the challenge
column and the parent columns against TreeC, and build the encoding proofs
for the included layers. -/
def prove_challenge (verify : EncodingProofM → Fr → Option Fr → Bool)
    (pred : Nat → Nat → Bool) (h2 : Fr → Fr → Fr) (g : GraphModel)
    (t_aux : TemporaryAuxM) (layers challenge_index challenge : Nat) :
    Except RErr ProofM :=
  if ¬ challenge < g.size then .error .invalidChallenge
  else if ¬ 0 < challenge then .error .invalidChallenge
  else
    let comm_d_proof := gen_proof h2 t_aux.tree_d challenge
    match column_proof h2 t_aux.encodings t_aux.tree_c challenge with
    | .error e => .error e
    | .ok c_x =>
      match (g.base_parents challenge).mapM
          (column_proof h2 t_aux.encodings t_aux.tree_c) with
      | .error e => .error e
      | .ok drg_parents =>
        match (g.expanded_parents challenge).mapM
            (column_proof h2 t_aux.encodings t_aux.tree_c) with
        | .error e => .error e
        | .ok exp_parents =>
          let comm_r_last_proof := gen_proof h2 t_aux.tree_r_last challenge
          match encoding_proofs_loop verify pred g t_aux.encodings layers
              challenge_index challenge comm_d_proof.leaf comm_r_last_proof.leaf
              c_x.column with
          | .error e => .error e
          | .ok eps =>
              .ok { comm_d_proofs := comm_d_proof,
                    replica_column_proofs :=
                      { c_x := c_x, drg_parents := drg_parents,
                        exp_parents := exp_parents },
                    comm_r_last_proof := comm_r_last_proof,
                    encoding_proofs := eps.filterMap id }

/-- BASE_DEGREE from storage_proofs_core::drgraph, used by
compute_pages_inner to split the parent array. -/
def BASE_DEGREE : Nat := 6

/-- region::page::floor: the page-aligned address at or below `addr`
(`P` is the system page size). -/
def page_floor (P addr : Nat) : Nat := addr - addr % P

/-- region::page::size_from_range: the total size of the pages covering
`[ptr, ptr + len)`. -/
def page_size_from_range (P ptr len : Nat) : Nat :=
  (ptr + len + P - 1) / P * P - page_floor P ptr

/-- The page map of prefetch_nodes: page-floor address to the maximum
observed covering size.  (The source value also carries a HashSet of node
offsets that is used only for logging; it is omitted.) -/
def AddrMap := List (Nat × Nat)

/-- Insert a page, keeping the maximum size ever observed for it
(build_pages, create_label.rs lines 196-206). -/
def map_insert_max (addr size : Nat) : AddrMap → AddrMap
  | [] => [(addr, size)]
  | (a, s) :: rest =>
      if a = addr then (a, max s size) :: rest
      else (a, s) :: map_insert_max addr size rest

/-- The key set of a page map. -/
def map_keys (m : AddrMap) : List Nat := m.map Prod.fst

/-- `HashMap::remove(addr)` on a page map. -/
def map_remove (m : AddrMap) (addr : Nat) : AddrMap :=
  m.filter (fun p => p.1 ≠ addr)

/-- The key-removal loops of prefetch_nodes lines 118-123. -/
def map_remove_keys (m : AddrMap) (ks : List Nat) : AddrMap :=
  ks.foldl map_remove m

/-- `HashMap::insert(addr, size)` (replacing any previous size). -/
def map_insert_replace (addr size : Nat) : AddrMap → AddrMap
  | [] => [(addr, size)]
  | (a, s) :: rest =>
      if a = addr then (a, size) :: rest
      else (a, s) :: map_insert_replace addr size rest

/-- The node-0 merge loop of prefetch_nodes lines 125-130. -/
def map_insert_all (dst src : AddrMap) : AddrMap :=
  src.foldl (fun m p => map_insert_replace p.1 p.2 m) dst

/-- Ordered insertion by address (ties keep insertion order). -/
def sort_insert (p : Nat × Nat) : AddrMap → AddrMap
  | [] => [p]
  | q :: rest => if p.1 ≤ q.1 then p :: q :: rest else q :: sort_insert p rest

/-- BTreeMap iteration order: the page map sorted by address. -/
def map_sorted (m : AddrMap) : AddrMap :=
  m.foldr sort_insert []

/-- build_pages from create_label.rs lines 188-209: register the page of
each node's 32-byte range in the given buffer, whose base address is
`base`. -/
def build_pages (P base : Nat) (nodes : List Nat) (pages : AddrMap) : AddrMap :=
  nodes.foldl
    (fun m node =>
      let ptr := base + node * NODE_SIZE
      map_insert_max (page_floor P ptr) (page_size_from_range P ptr NODE_SIZE) m)
    pages

/-- compute_pages_inner from create_label.rs lines 171-185: the node's own
label page, the pages of its first BASE_DEGREE parents in the current layer,
and, when expander-parent data is non-empty, the pages of the remaining
parents in the previous layer.  `layer_base` and `exp_base` are the base
addresses of the two buffers. -/
def compute_pages_inner (P layer_base exp_base : Nat) (exp_empty : Bool)
    (parents : List Nat) (node : Nat) (pages : AddrMap) : AddrMap :=
  let m1 := build_pages P layer_base [node] pages
  let m2 := build_pages P layer_base (parents.take BASE_DEGREE) m1
  if exp_empty then m2
  else build_pages P exp_base (parents.drop BASE_DEGREE) m2

/-- compute_pages from create_label.rs lines 150-169: accumulate the pages
required by every node of `[start_node, end_node)`. -/
def compute_pages (g : GraphModel) (P layer_base exp_base : Nat)
    (exp_empty : Bool) (start_node end_node : Nat) (pages : AddrMap) : AddrMap :=
  (List.range (end_node - start_node)).foldl
    (fun m j =>
      compute_pages_inner P layer_base exp_base exp_empty
        (g.parents (start_node + j)) (start_node + j) m)
    pages

/-- A page-residency system call with its address and size. -/
inductive LockOp where
  | munlock (addr size : Nat)
  | mlock (addr size : Nat)
  deriving DecidableEq

/-- The `unlock_pages` window of prefetch_nodes (create_label.rs lines
103-106): the trailing window `[max(0, node - num), node)`. -/
def trailing_window_pages (g : GraphModel) (P layer_base exp_base : Nat)
    (exp_empty : Bool) (node num : Nat) : AddrMap :=
  compute_pages g P layer_base exp_base exp_empty (node - num) node []

/-- The `locked_pages` window of prefetch_nodes (lines 108-111): the next
window `[node, min(size, node + num))`. -/
def next_window_pages (g : GraphModel) (P layer_base exp_base : Nat)
    (exp_empty : Bool) (node num : Nat) : AddrMap :=
  compute_pages g P layer_base exp_base exp_empty node
    (min g.size (node + num)) []

/-- The `lock_pages` window of prefetch_nodes (lines 113-116): the
look-ahead window `[min(size, node + num), min(size, min(size, node + num) + num))`. -/
def lookahead_window_pages (g : GraphModel) (P layer_base exp_base : Nat)
    (exp_empty : Bool) (node num : Nat) : AddrMap :=
  compute_pages g P layer_base exp_base exp_empty (min g.size (node + num))
    (min g.size (min g.size (node + num) + num)) []

/-- The final unlock set of prefetch_nodes (lines 118-123): the trailing
window minus every page of the next and look-ahead windows. -/
def prefetch_unlock_pages (g : GraphModel) (P layer_base exp_base : Nat)
    (exp_empty : Bool) (node num : Nat) : AddrMap :=
  map_remove_keys
    (map_remove_keys (trailing_window_pages g P layer_base exp_base exp_empty node num)
      (map_keys (next_window_pages g P layer_base exp_base exp_empty node num)))
    (map_keys (lookahead_window_pages g P layer_base exp_base exp_empty node num))

/-- The final lock set of prefetch_nodes (lines 125-130): the look-ahead
window, merged with the next window only when `node = 0`. -/
def prefetch_lock_pages (g : GraphModel) (P layer_base exp_base : Nat)
    (exp_empty : Bool) (node num : Nat) : AddrMap :=
  if node = 0 then
    map_insert_all (lookahead_window_pages g P layer_base exp_base exp_empty node num)
      (next_window_pages g P layer_base exp_base exp_empty node num)
  else lookahead_window_pages g P layer_base exp_base exp_empty node num

/-- prefetch_nodes from create_label.rs lines 92-148, as the ordered list of
lock/unlock system calls it issues: all munlocks of the final unlock set (in
BTreeMap address order) followed by all mlocks of the final lock set. -/
def prefetch_nodes_ops (g : GraphModel) (P layer_base exp_base : Nat)
    (exp_empty : Bool) (node num : Nat) : List LockOp :=
  (map_sorted (prefetch_unlock_pages g P layer_base exp_base exp_empty node num)).map
      (fun p => LockOp.munlock p.1 p.2) ++
    (map_sorted (prefetch_lock_pages g P layer_base exp_base exp_empty node num)).map
      (fun p => LockOp.mlock p.1 p.2)

/-- The mlock/munlock loops of create_label.rs lines 211-229: each
`region::lock(..)?` / `region::unlock(..)?` propagates its first failure via
`?`.  `sys` is the operating system's response to one call. -/
def run_lock_ops (sys : LockOp → Except Nat Unit) : List LockOp → Except Nat Unit
  | [] => .ok ()
  | op :: rest =>
      match sys op with
      | .error e => .error e
      | .ok _ => run_lock_ops sys rest

/-- prefetch_nodes from create_label.rs lines 92-148: issue the computed
system calls, propagating the first failing mlock/munlock (the `?` on lines
134 and 139). -/
def prefetch_nodes (sys : LockOp → Except Nat Unit) (g : GraphModel)
    (P layer_base exp_base : Nat) (exp_empty : Bool) (node num : Nat) :
    Except Nat Unit :=
  run_lock_ops sys (prefetch_nodes_ops g P layer_base exp_base exp_empty node num)

/-- Decimal digit test on a character, as Rust `usize::from_str`. -/
def is_ascii_digit (c : Char) : Bool := 48 ≤ c.toNat && c.toNat ≤ 57

/-- Parse a non-empty all-digit string. -/
def parse_digits (cs : List Char) : Option Nat :=
  if cs.isEmpty then none
  else if cs.all is_ascii_digit then
    some (cs.foldl (fun a c => a * 10 + (c.toNat - 48)) 0)
  else none

/-- Rust `str::parse::<usize>()` on a 64-bit target: an optional leading
plus sign, then decimal digits; overflow past 2^64 is a parse error. -/
def parse_usize (s : String) : Option Nat :=
  let cs := s.data
  let cs := if cs.headD 'x' = '+' then cs.tail else cs
  match parse_digits cs with
  | some v => if v < 2 ^ 64 then some v else none
  | none => none

/-- The observable outcome of get_gpu_index: a bus id, a returned error, or
the panic of an out-of-bounds `bus_ids[index]`. -/
inductive GpuOutcome where
  | ok (bus_id : Nat)
  | err (msg : String)
  | panicOOB
  deriving DecidableEq

/-- get_gpu_index from gpu_selector.rs: `env` is the value of the
P2_GPU_INDEX environment variable (None when unset), `bus_ids` the sorted
deduplicated NVIDIA bus ids (their enumeration is an external collaborator).
An unset or unparsable variable is defaulted to index 0; the final
`bus_ids[index]` panics when the index is out of bounds. -/
def get_gpu_index (env : Option String) (bus_ids : List Nat) : GpuOutcome :=
  if bus_ids.isEmpty then .err "No working GPUs found!"
  else
    let index : Nat :=
      match env with
      | none => 0
      | some v =>
          match parse_usize v with
          | some val => val
          | none => 0
    match bus_ids[index]? with
    | some b => .ok b
    | none => .panicOOB

/-! ### Helper lemmas -/

lemma leBytes_length (n v : Nat) : (leBytes n v).length = n := by
  induction n generalizing v with
  | zero => rfl
  | succ n ih => simp [leBytes, ih]

lemma leBytes8_length (v : Nat) : (leBytes8 v).length = 8 :=
  leBytes_length 8 v

lemma beBytes8_length (v : Nat) : (beBytes8 v).length = 8 := by
  simp [beBytes8, leBytes_length]

lemma land_mask_high_bits (a : Nat) : Nat.land (Nat.land a 0x3F) 0xC0 = 0 := by
  show a &&& 63 &&& 192 = 0
  rw [Nat.land_assoc, show (63 &&& 192 : Nat) = 0 by decide]
  simp

/-! ### Claim C10 -/

/-- Claim C10: when P2_GPU_INDEX parses as a valid integer i with i at least
the number of detected bus ids, get_gpu_index panics on the out-of-bounds
indexing of the sorted bus-id list; only unparsable values are defaulted to
index 0 (returning the first bus id). -/
theorem get_gpu_index_oob_panics (env : String) (bus_ids : List Nat) :
    (∀ i, parse_usize env = some i → bus_ids.length ≤ i → bus_ids ≠ [] →
      get_gpu_index (some env) bus_ids = GpuOutcome.panicOOB) ∧
    (parse_usize env = none → bus_ids ≠ [] →
      get_gpu_index (some env) bus_ids = GpuOutcome.ok (bus_ids.headD 0)) := by
  constructor
  · intro i hp hlen hne
    cases bus_ids with
    | nil => exact absurd rfl hne
    | cons b bs =>
        simp only [get_gpu_index, List.isEmpty_cons, Bool.false_eq_true,
          if_false, hp]
        rw [List.getElem?_eq_none hlen]
  · intro hp hne
    cases bus_ids with
    | nil => exact absurd rfl hne
    | cons b bs =>
        simp only [get_gpu_index, List.isEmpty_cons, Bool.false_eq_true,
          if_false, hp]
        simp [List.getElem?_cons_zero]

/-- Witness for C10: parse index 5 against a single detected GPU panics;
the unparsable value defaults to the first bus id. -/
theorem get_gpu_index_oob_panics_witness :
    get_gpu_index (some "5") [10] = GpuOutcome.panicOOB ∧
    get_gpu_index (some "zzz") [10] = GpuOutcome.ok 10 :=
  ⟨(get_gpu_index_oob_panics "5" [10]).1 5 (by decide) (by decide) (by decide),
   (get_gpu_index_oob_panics "zzz" [10]).2 (by decide) (by decide)⟩

/-! ### Claim C2 -/

/-- A small concrete graph used by concrete instances. -/
def c2g : GraphModel :=
  { size := 2, base_degree := 1, exp_degree := 0,
    base_parents := fun _ => [0], expanded_parents := fun _ => [] }

/-- A concrete 32-byte replica id. -/
def c2rid : List Nat := List.replicate 32 0

/-- Claim C2 counterexample: in the SHA-256 label path (create_label), the 8
bytes fed to the hasher immediately after the replica id for node 1 are NOT
the little-endian encoding of 1 (they are its big-endian encoding,
`(node as u64).to_be_bytes()`, create_label.rs line 28). -/
theorem sha_label_index_not_little_endian :
    ((sha_label_input c2g c2rid (List.replicate 64 0) 1).drop 32).take 8 ≠
      leBytes8 1 := by decide

/-- Claim C2 (amended): the 8 bytes fed to the hasher immediately after the
replica id are the little-endian encoding of the node index in the Blake2s
path (generate_layers), but the big-endian encoding in the SHA-256 path
(create_label and create_label_exp). -/
theorem label_index_endianness (g : GraphModel) (rid : List Nat)
    (hrid : rid.length = 32) (node : Nat) (enc ll expd' : List Nat)
    (expd : Option (List Nat)) :
    ((blake_label_input g rid node enc expd).drop 32).take 8 = leBytes8 node ∧
    ((sha_label_input g rid ll node).drop 32).take 8 = beBytes8 node ∧
    ((sha_label_input_exp g rid expd' ll node).drop 32).take 8 = beBytes8 node := by
  refine ⟨?_, ?_, ?_⟩
  · simp only [blake_label_input, List.append_assoc]
    rw [List.drop_left' hrid, List.take_left' (leBytes8_length node)]
  · simp only [sha_label_input, sha_node_buffer, List.append_assoc]
    rw [List.drop_left' hrid, List.take_left' (beBytes8_length node)]
  · simp only [sha_label_input_exp, sha_node_buffer, List.append_assoc]
    rw [List.drop_left' hrid, List.take_left' (beBytes8_length node)]

/-- Witness for the amended C2 at node 5. -/
theorem label_index_endianness_witness :
    ((blake_label_input c2g c2rid 5 [] none).drop 32).take 8 = leBytes8 5 ∧
    ((sha_label_input c2g c2rid [] 5).drop 32).take 8 = beBytes8 5 ∧
    ((sha_label_input_exp c2g c2rid [] [] 5).drop 32).take 8 = beBytes8 5 :=
  label_index_endianness c2g c2rid (by decide) 5 [] [] [] none

/-! ### Claims C8 and C9 -/

/-- The addresses munlocked by a sequence of lock operations. -/
def munlock_addrs (ops : List LockOp) : List Nat :=
  ops.filterMap fun op =>
    match op with
    | .munlock a _ => some a
    | .mlock _ _ => none

/-- The addresses mlocked by a sequence of lock operations. -/
def mlock_addrs (ops : List LockOp) : List Nat :=
  ops.filterMap fun op =>
    match op with
    | .mlock a _ => some a
    | .munlock _ _ => none

lemma mem_keys_remove {m : AddrMap} {k a : Nat} :
    a ∈ map_keys (map_remove m k) ↔ a ∈ map_keys m ∧ a ≠ k := by
  simp only [map_keys, map_remove, List.mem_map, List.mem_filter,
    decide_eq_true_eq]
  constructor
  · rintro ⟨p, ⟨hp, hne⟩, rfl⟩
    exact ⟨⟨p, hp, rfl⟩, hne⟩
  · rintro ⟨⟨p, hp, rfl⟩, hne⟩
    exact ⟨p, ⟨hp, hne⟩, rfl⟩

lemma mem_keys_remove_keys {ks : List Nat} {m : AddrMap} {a : Nat} :
    a ∈ map_keys (map_remove_keys m ks) ↔ a ∈ map_keys m ∧ a ∉ ks := by
  induction ks generalizing m with
  | nil => simp [map_remove_keys]
  | cons k ks ih =>
      show a ∈ map_keys (map_remove_keys (map_remove m k) ks) ↔ _
      rw [ih, mem_keys_remove]
      simp only [List.mem_cons]
      tauto

lemma mem_keys_insert_replace {m : AddrMap} {k v a : Nat} :
    a ∈ map_keys (map_insert_replace k v m) ↔ a = k ∨ a ∈ map_keys m := by
  induction m with
  | nil => simp [map_insert_replace, map_keys]
  | cons p rest ih =>
      obtain ⟨b, s⟩ := p
      by_cases h : b = k
      · subst h
        simp [map_insert_replace, map_keys]
      · simp only [map_insert_replace, if_neg h, map_keys, List.map_cons,
          List.mem_cons] at ih ⊢
        tauto

lemma mem_keys_insert_all {src dst : AddrMap} {a : Nat} :
    a ∈ map_keys (map_insert_all dst src) ↔
      a ∈ map_keys dst ∨ a ∈ map_keys src := by
  induction src generalizing dst with
  | nil => simp [map_insert_all, map_keys]
  | cons p rest ih =>
      show a ∈ map_keys (map_insert_all (map_insert_replace p.1 p.2 dst) rest) ↔ _
      rw [ih, mem_keys_insert_replace]
      simp only [map_keys, List.map_cons, List.mem_cons]
      tauto

lemma mem_keys_sort_insert {p : Nat × Nat} {l : AddrMap} {a : Nat} :
    a ∈ map_keys (sort_insert p l) ↔ a = p.1 ∨ a ∈ map_keys l := by
  induction l with
  | nil => simp [sort_insert, map_keys]
  | cons q rest ih =>
      by_cases h : p.1 ≤ q.1
      · simp [sort_insert, if_pos h, map_keys]
      · simp only [sort_insert, if_neg h, map_keys, List.map_cons,
          List.mem_cons] at ih ⊢
        tauto

lemma mem_keys_sorted {m : AddrMap} {a : Nat} :
    a ∈ map_keys (map_sorted m) ↔ a ∈ map_keys m := by
  induction m with
  | nil => simp [map_sorted]
  | cons p rest ih =>
      show a ∈ map_keys (sort_insert p (map_sorted rest)) ↔ _
      rw [mem_keys_sort_insert, ih]
      simp [map_keys]

lemma munlock_addrs_append_maps (ul ll : AddrMap) :
    munlock_addrs (ul.map (fun p => LockOp.munlock p.1 p.2) ++
      ll.map (fun p => LockOp.mlock p.1 p.2)) = map_keys ul := by
  induction ul with
  | nil =>
      induction ll with
      | nil => rfl
      | cons q rest ihq => simp [munlock_addrs, map_keys] at ihq ⊢
  | cons p rest ihp =>
      simpa [munlock_addrs, map_keys] using ihp

lemma mlock_addrs_append_maps (ul ll : AddrMap) :
    mlock_addrs (ul.map (fun p => LockOp.munlock p.1 p.2) ++
      ll.map (fun p => LockOp.mlock p.1 p.2)) = map_keys ll := by
  induction ul with
  | nil =>
      induction ll with
      | nil => rfl
      | cons q rest ihq => simpa [mlock_addrs, map_keys] using ihq
  | cons p rest ihp =>
      simpa [mlock_addrs, map_keys] using ihp

/-- The concrete graph of the page-controller counterexample: every node has
the six base parents required by the BASE_DEGREE split, all pointing at
node 0. -/
def c8g : GraphModel :=
  { size := 4, base_degree := 6, exp_degree := 0,
    base_parents := fun _ => [0, 0, 0, 0, 0, 0],
    expanded_parents := fun _ => [] }

/-- Claim C8 counterexample: with page size 32, buffer base 0, node 1 and
window 1, the next window [1, 2) requires page 32 (the challenge node's own
label page), yet the only system calls issued are mlocks of pages 0 and 64 —
the next window is not mlocked (prefetch_nodes only mlocks `lock_pages`, the
look-ahead window, when node is not 0). -/
theorem prefetch_next_window_not_mlocked :
    32 ∈ map_keys (next_window_pages c8g 32 0 4096 true 1 1) ∧
    prefetch_nodes_ops c8g 32 0 4096 true 1 1 =
      [LockOp.mlock 0 32, LockOp.mlock 64 32] := by decide

/-- Claim C8 (amended): prefetch_nodes munlocks exactly the trailing-window
pages minus every page of the next or look-ahead window; it mlocks exactly
the look-ahead-window pages, plus the next-window pages only when node = 0;
and all munlocks are applied before all mlocks. -/
theorem prefetch_nodes_ops_windows (g : GraphModel) (P lb eb : Nat)
    (ee : Bool) (node num a : Nat) :
    (a ∈ munlock_addrs (prefetch_nodes_ops g P lb eb ee node num) ↔
      a ∈ map_keys (trailing_window_pages g P lb eb ee node num) ∧
      a ∉ map_keys (next_window_pages g P lb eb ee node num) ∧
      a ∉ map_keys (lookahead_window_pages g P lb eb ee node num)) ∧
    (a ∈ mlock_addrs (prefetch_nodes_ops g P lb eb ee node num) ↔
      (a ∈ map_keys (lookahead_window_pages g P lb eb ee node num) ∨
        (node = 0 ∧ a ∈ map_keys (next_window_pages g P lb eb ee node num)))) ∧
    (∃ ul ll : AddrMap, prefetch_nodes_ops g P lb eb ee node num =
      ul.map (fun p => LockOp.munlock p.1 p.2) ++
        ll.map (fun p => LockOp.mlock p.1 p.2)) := by
  refine ⟨?_, ?_, ?_⟩
  · rw [prefetch_nodes_ops, munlock_addrs_append_maps, mem_keys_sorted,
      prefetch_unlock_pages, mem_keys_remove_keys, mem_keys_remove_keys]
    tauto
  · rw [prefetch_nodes_ops, mlock_addrs_append_maps, mem_keys_sorted,
      prefetch_lock_pages]
    by_cases h : node = 0
    · rw [if_pos h, mem_keys_insert_all]
      tauto
    · rw [if_neg h]
      tauto
  · exact ⟨map_sorted (prefetch_unlock_pages g P lb eb ee node num),
      map_sorted (prefetch_lock_pages g P lb eb ee node num), rfl⟩

/-- The failing operating system of the C9 counterexample: locking page 0
fails with error code 7, everything else succeeds. -/
def c9sys : LockOp → Except Nat Unit := fun op =>
  match op with
  | .mlock 0 _ => .error 7
  | _ => .ok ()

/-- Claim C9 counterexample: an mlock failure is propagated by
prefetch_nodes through the `?` operators on create_label.rs lines 134 and
139 — the routine returns the error instead of succeeding. -/
theorem prefetch_lock_failure_surfaces :
    prefetch_nodes c9sys c8g 32 0 4096 true 1 1 = Except.error 7 ∧
    prefetch_nodes c9sys c8g 32 0 4096 true 1 1 ≠ Except.ok () :=
  ⟨rfl, fun h => nomatch h⟩

/-- Claim C9 (amended): prefetch_nodes returns success exactly when every
mlock and munlock system call it issues succeeds; the first failure is
propagated to the caller. -/
theorem prefetch_nodes_ok_iff (sys : LockOp → Except Nat Unit) (g : GraphModel)
    (P lb eb : Nat) (ee : Bool) (node num : Nat) :
    prefetch_nodes sys g P lb eb ee node num = .ok () ↔
      ∀ op ∈ prefetch_nodes_ops g P lb eb ee node num, sys op = .ok () := by
  unfold prefetch_nodes
  generalize prefetch_nodes_ops g P lb eb ee node num = l
  induction l with
  | nil => simp [run_lock_ops]
  | cons op rest ih =>
      simp only [run_lock_ops]
      cases h : sys op with
      | error e => simp [h]
      | ok u =>
          cases u
          simp [h, ih]

/-! ### Structure of store_label -/

/-- The field mask applied to a 32-byte hash output: clear the two top bits
of byte 31. -/
def mask_label (h : List Nat) : List Nat :=
  h.set 31 (Nat.land (h.getD 31 0) 0x3F)

lemma store_label_eq (buf h : List Nat) (node : Nat)
    (hb : node * NODE_SIZE + NODE_SIZE ≤ buf.length) (hh : h.length = NODE_SIZE) :
    store_label buf node h =
      buf.take (node * NODE_SIZE) ++ mask_label h ++
        buf.drop (node * NODE_SIZE + NODE_SIZE) := by
  simp only [store_label, data_at_node_offset, mask_label, NODE_SIZE] at hb hh ⊢
  have hstart : (buf.take (node * 32)).length = node * 32 := by
    rw [List.length_take]
    omega
  have hidx : node * 32 + 32 - 1 - node * 32 = 31 := by omega
  have hget : (buf.take (node * 32) ++ h ++ buf.drop (node * 32 + 32)).getD
      (node * 32 + 32 - 1) 0 = h.getD 31 0 := by
    rw [List.getD_eq_getElem?_getD, List.getD_eq_getElem?_getD,
      List.append_assoc,
      List.getElem?_append_right (by rw [hstart]; omega), hstart, hidx,
      List.getElem?_append, if_pos (by omega)]
  rw [hget, List.set_append,
    if_pos (by rw [List.length_append, hstart, hh]; omega),
    List.set_append, if_neg (by rw [hstart]; omega), hstart, hidx]

lemma mask_label_length (h : List Nat) : (mask_label h).length = h.length := by
  simp [mask_label]

lemma store_label_length (buf h : List Nat) (node : Nat)
    (hb : node * NODE_SIZE + NODE_SIZE ≤ buf.length) (hh : h.length = NODE_SIZE) :
    (store_label buf node h).length = buf.length := by
  rw [store_label_eq buf h node hb hh]
  simp only [List.length_append, List.length_take, List.length_drop,
    mask_label_length, hh, NODE_SIZE] at hb ⊢
  omega

lemma store_label_getElem?_lt (buf h : List Nat) (node j : Nat)
    (hb : node * NODE_SIZE + NODE_SIZE ≤ buf.length) (hh : h.length = NODE_SIZE)
    (hj : j < node * NODE_SIZE) :
    (store_label buf node h)[j]? = buf[j]? := by
  rw [store_label_eq buf h node hb hh]
  simp only [NODE_SIZE] at hb hj ⊢
  rw [List.append_assoc, List.getElem?_append,
    if_pos (by rw [List.length_take]; omega),
    List.getElem?_take, if_pos hj]

lemma store_label_last_byte (buf h : List Nat) (node : Nat)
    (hb : node * NODE_SIZE + NODE_SIZE ≤ buf.length) (hh : h.length = NODE_SIZE) :
    (store_label buf node h)[node * NODE_SIZE + NODE_SIZE - 1]? =
      some (Nat.land (h.getD 31 0) 0x3F) := by
  rw [store_label_eq buf h node hb hh]
  simp only [NODE_SIZE] at hb hh ⊢
  have hstart : (buf.take (node * 32)).length = node * 32 := by
    rw [List.length_take]
    omega
  rw [List.append_assoc,
    List.getElem?_append_right (by rw [hstart]; omega), hstart]
  have hidx : node * 32 + 32 - 1 - node * 32 = 31 := by omega
  rw [hidx, List.getElem?_append,
    if_pos (by rw [mask_label_length, hh]; omega),
    mask_label, List.getElem?_set, if_pos rfl, if_pos (by omega)]

/-! ### Layer passes preserve length, earlier bytes and the field mask -/

section PassLemmas

variable (hash : List Nat → List Nat) (g : GraphModel) (rid : List Nat)
variable (expd : Option (List Nat))

lemma generate_node_length (hhash : ∀ i, (hash i).length = NODE_SIZE)
    (enc : List Nat) (node : Nat)
    (hlen : enc.length = g.size * NODE_SIZE) (hnode : node < g.size) :
    (generate_node hash g rid expd enc node).length = g.size * NODE_SIZE := by
  rw [generate_node, store_label_length _ _ _ ?_ (hhash _), hlen]
  rw [hlen]
  simp only [NODE_SIZE]
  omega

lemma pass_nodes_length (hhash : ∀ i, (hash i).length = NODE_SIZE) (rem : Nat) :
    ∀ (node : Nat) (enc : List Nat), enc.length = g.size * NODE_SIZE →
      node + rem ≤ g.size →
      (pass_nodes hash g rid expd enc node rem).length = g.size * NODE_SIZE := by
  induction rem with
  | zero => intro node enc hlen _; exact hlen
  | succ rem ih =>
      intro node enc hlen hle
      show (pass_nodes hash g rid expd
        (generate_node hash g rid expd enc node) (node + 1) rem).length = _
      exact ih (node + 1)
        (generate_node hash g rid expd enc node)
        (generate_node_length hash g rid expd hhash enc node hlen (by omega))
        (by omega)

lemma pass_nodes_getElem?_lt (hhash : ∀ i, (hash i).length = NODE_SIZE) (rem : Nat) :
    ∀ (node j : Nat) (enc : List Nat), enc.length = g.size * NODE_SIZE →
      node + rem ≤ g.size → j < node * NODE_SIZE →
      (pass_nodes hash g rid expd enc node rem)[j]? = enc[j]? := by
  induction rem with
  | zero => intro node j enc _ _ _; rfl
  | succ rem ih =>
      intro node j enc hlen hle hj
      show (pass_nodes hash g rid expd
        (generate_node hash g rid expd enc node) (node + 1) rem)[j]? = _
      rw [ih (node + 1) j _
        (generate_node_length hash g rid expd hhash enc node hlen (by omega))
        (by omega)
        (by simp only [NODE_SIZE] at hj ⊢; omega)]
      exact store_label_getElem?_lt enc _ node j
        (by rw [hlen]; simp only [NODE_SIZE]; omega) (hhash _) hj

lemma pass_nodes_last_byte_masked (hhash : ∀ i, (hash i).length = NODE_SIZE)
    (rem : Nat) :
    ∀ (node x : Nat) (enc : List Nat), enc.length = g.size * NODE_SIZE →
      node + rem ≤ g.size → node ≤ x → x < node + rem →
      Nat.land ((pass_nodes hash g rid expd enc node rem).getD
        (x * NODE_SIZE + NODE_SIZE - 1) 0) 0xC0 = 0 := by
  induction rem with
  | zero => intro node x enc _ _ _ hx; omega
  | succ rem ih =>
      intro node x enc hlen hle hxlo hxhi
      rcases Nat.eq_or_lt_of_le hxlo with heq | hlt
      · subst heq
        show Nat.land ((pass_nodes hash g rid expd
          (generate_node hash g rid expd enc node) (node + 1) rem).getD
            (node * NODE_SIZE + NODE_SIZE - 1) 0) 0xC0 = 0
        rw [List.getD_eq_getElem?_getD,
          pass_nodes_getElem?_lt hash g rid expd hhash rem (node + 1) _ _
            (generate_node_length hash g rid expd hhash enc node hlen (by omega))
            (by omega)
            (by simp only [NODE_SIZE]; omega),
          generate_node,
          store_label_last_byte enc _ node
            (by rw [hlen]; simp only [NODE_SIZE]; omega) (hhash _)]
        exact land_mask_high_bits _
      · show Nat.land ((pass_nodes hash g rid expd
          (generate_node hash g rid expd enc node) (node + 1) rem).getD
            (x * NODE_SIZE + NODE_SIZE - 1) 0) 0xC0 = 0
        exact ih (node + 1) x _
          (generate_node_length hash g rid expd hhash enc node hlen (by omega))
          (by omega) hlt (by omega)

lemma layer_pass_length (hhash : ∀ i, (hash i).length = NODE_SIZE)
    (enc : List Nat) (hlen : enc.length = g.size * NODE_SIZE) :
    (layer_pass hash g rid expd enc).length = g.size * NODE_SIZE :=
  pass_nodes_length hash g rid expd hhash g.size 0 enc hlen (by omega)

lemma layer_pass_masked (hhash : ∀ i, (hash i).length = NODE_SIZE)
    (enc : List Nat) (hlen : enc.length = g.size * NODE_SIZE) (x : Nat) :
    Nat.land ((layer_pass hash g rid expd enc).getD
      (x * NODE_SIZE + NODE_SIZE - 1) 0) 0xC0 = 0 := by
  by_cases hx : x < g.size
  · exact pass_nodes_last_byte_masked hash g rid expd hhash g.size 0 x enc hlen
      (by omega) (by omega) (by omega)
  · rw [List.getD_eq_getElem?_getD,
      List.getElem?_eq_none
        (by rw [layer_pass_length hash g rid expd hhash enc hlen]
            simp only [NODE_SIZE]
            omega),
      Option.getD_none]
    decide

lemma generate_layers_aux_masked (hhash : ∀ i, (hash i).length = NODE_SIZE)
    (layers : Nat) :
    ∀ (enc : List Nat) (expd0 : Option (List Nat)),
      enc.length = g.size * NODE_SIZE →
      ∀ L ∈ generate_layers_aux hash g rid layers enc expd0, ∀ x,
        Nat.land (L.getD (x * NODE_SIZE + NODE_SIZE - 1) 0) 0xC0 = 0 := by
  induction layers with
  | zero => intro enc expd0 _ L hL; exact absurd hL (List.not_mem_nil L)
  | succ layers ih =>
      intro enc expd0 hlen L hL x
      rw [show generate_layers_aux hash g rid (layers + 1) enc expd0 =
        layer_pass hash g rid expd0 enc ::
          generate_layers_aux hash g rid layers (layer_pass hash g rid expd0 enc)
            (some (layer_pass hash g rid expd0 enc)) from rfl] at hL
      rcases List.mem_cons.mp hL with heq | hmem
      · subst heq
        exact layer_pass_masked hash g rid expd0 hhash enc hlen x
      · exact ih (layer_pass hash g rid expd0 enc) _
          (layer_pass_length hash g rid expd0 hhash enc hlen) L hmem x

end PassLemmas

/-! ### Claim C4 -/

/-- Claim C4: every 32-byte label written by the label engine has the two
top bits of its last byte cleared, in every layer of the Blake2s path
(generate_layers) and in both SHA-256 derivation paths (create_label and
create_label_exp), for every hasher whose digests are 32 bytes. -/
theorem labels_field_masked (hash : List Nat → List Nat) (g : GraphModel)
    (rid : List Nat) (layers : Nat)
    (hhash : ∀ i, (hash i).length = NODE_SIZE) :
    (∀ L ∈ generate_layers hash g rid layers, ∀ x,
      Nat.land (L.getD (x * NODE_SIZE + NODE_SIZE - 1) 0) 0xC0 = 0) ∧
    (∀ (shaHash : List Nat → List Nat) (ll expd : List Nat) (node : Nat),
      (∀ i, (shaHash i).length = NODE_SIZE) →
      node * NODE_SIZE + NODE_SIZE ≤ ll.length →
      Nat.land ((create_label shaHash g rid ll node).getD
        (node * NODE_SIZE + NODE_SIZE - 1) 0) 0xC0 = 0 ∧
      Nat.land ((create_label_exp shaHash g rid expd ll node).getD
        (node * NODE_SIZE + NODE_SIZE - 1) 0) 0xC0 = 0) := by
  constructor
  · intro L hL x
    exact generate_layers_aux_masked hash g rid hhash layers _ none
      (by simp) L hL x
  · intro shaHash ll expd node hsha hb
    constructor
    · rw [create_label, List.getD_eq_getElem?_getD,
        store_label_last_byte ll _ node hb (hsha _)]
      exact land_mask_high_bits _
    · rw [create_label_exp, List.getD_eq_getElem?_getD,
        store_label_last_byte ll _ node hb (hsha _)]
      exact land_mask_high_bits _

/-- The constant 32-byte hash used by concrete witnesses. -/
def hashW : List Nat → List Nat := fun _ => List.replicate 32 0

/-- Witness for C4 on a concrete 2-node graph, one Blake2s layer and one
SHA-256 label. -/
theorem labels_field_masked_witness :
    Nat.land (((generate_layers hashW c2g c2rid 1).getD 0 []).getD
      (0 * NODE_SIZE + NODE_SIZE - 1) 0) 0xC0 = 0 ∧
    Nat.land ((create_label hashW c2g c2rid (List.replicate 64 0) 1).getD
      (1 * NODE_SIZE + NODE_SIZE - 1) 0) 0xC0 = 0 :=
  ⟨(labels_field_masked hashW c2g c2rid 1 (fun _ => by simp [hashW, NODE_SIZE])).1
      ((generate_layers hashW c2g c2rid 1).getD 0 []) (by decide) 0,
   ((labels_field_masked hashW c2g c2rid 1 (fun _ => by simp [hashW, NODE_SIZE])).2
      hashW (List.replicate 64 0) [] 1 (fun _ => by simp [hashW, NODE_SIZE])
      (by decide)).1⟩

/-! ### Claim C3 -/

/-- Claim C3: proving a challenge that is 0 or at least the graph size fails
with InvalidChallenge (the two `assert!` panics of prove_layers lines 88-89,
modelled as errors), and every challenge of a successfully returned proof
satisfies 0 < c < N. -/
theorem prove_challenge_validates (verify : EncodingProofM → Fr → Option Fr → Bool)
    (pred : Nat → Nat → Bool) (h2 : Fr → Fr → Fr) (g : GraphModel)
    (t_aux : TemporaryAuxM) (layers ci c : Nat) :
    (c = 0 ∨ g.size ≤ c →
      prove_challenge verify pred h2 g t_aux layers ci c =
        .error .invalidChallenge) ∧
    (∀ p, prove_challenge verify pred h2 g t_aux layers ci c = .ok p →
      0 < c ∧ c < g.size) := by
  constructor
  · intro h
    rw [prove_challenge]
    by_cases h1 : ¬ c < g.size
    · rw [if_pos h1]
    · rw [if_neg h1, if_pos ?_]
      push_neg at h1
      rcases h with h0 | hge
      · omega
      · omega
  · intro p hp
    rw [prove_challenge] at hp
    by_cases h1 : ¬ c < g.size
    · rw [if_pos h1] at hp
      exact Except.noConfusion hp
    · rw [if_neg h1] at hp
      by_cases h2c : ¬ 0 < c
      · rw [if_pos h2c] at hp
        exact Except.noConfusion hp
      · push_neg at h1 h2c
        exact ⟨h2c, h1⟩

/-- Tapering predicate, self-check and tree hash used by the concrete
proving witness. -/
def c3verify : EncodingProofM → Fr → Option Fr → Bool := fun _ _ _ => true

def c3pred : Nat → Nat → Bool := fun _ _ => true

def c3h2 : Fr → Fr → Fr := fun a _ => a

/-- A concrete TemporaryAux over one layer of two zero labels. -/
def c3taux : TemporaryAuxM :=
  { encodings := [List.replicate 64 0],
    tree_c := { leaves := [0, 0], root := 0 },
    tree_d := { leaves := [0, 0], root := 0 },
    tree_r_last := { leaves := [0, 0], root := 0 } }

/-- The proof returned for challenge 1 in the concrete proving witness. -/
def c3proof : ProofM :=
  match prove_challenge c3verify c3pred c3h2 c2g c3taux 1 0 1 with
  | .ok p => p
  | .error _ =>
      { comm_d_proofs := { leaf := 0, path := [] },
        replica_column_proofs :=
          { c_x := { column := [], tree_proof := { leaf := 0, path := [] } },
            drg_parents := [], exp_parents := [] },
        comm_r_last_proof := { leaf := 0, path := [] },
        encoding_proofs := [] }

/-- Witness for C3: challenge 0 is rejected with InvalidChallenge, and the
successfully proven challenge 1 lies strictly between 0 and N. -/
theorem prove_challenge_validates_witness :
    prove_challenge c3verify c3pred c3h2 c2g c3taux 1 0 0 =
      .error .invalidChallenge ∧ (0 < 1 ∧ 1 < c2g.size) :=
  ⟨(prove_challenge_validates c3verify c3pred c3h2 c2g c3taux 1 0 0).1 (Or.inl rfl),
   (prove_challenge_validates c3verify c3pred c3h2 c2g c3taux 1 0 1).2 c3proof rfl⟩

/-! ### Claim C6 -/

/-- Claim C6: for every successful replication the returned commitments are
consistent: Tau.comm_r is the commitment hash of PersistentAux.comm_c and
PersistentAux.comm_r_last, where comm_c is the root of TreeC and comm_r_last
the root of TreeR_last (proof.rs lines 453-474). -/
theorem replicate_commitments_consistent (hash : List Nat → List Nat)
    (hcol : List Nat → Fr) (h2tree hash2 : Fr → Fr → Fr) (g : GraphModel)
    (layers : Nat) (rid data : List Nat) (data_tree : Option MerkleTreeM)
    (out : ReplicateOutput)
    (h : transform_and_replicate_layers hash hcol h2tree hash2 g layers rid
      data data_tree = .ok out) :
    out.tau.comm_r = hash2 out.p_aux.comm_c out.p_aux.comm_r_last ∧
    out.p_aux.comm_c = out.t_aux.tree_c.root ∧
    out.p_aux.comm_r_last = out.t_aux.tree_r_last.root := by
  simp only [transform_and_replicate_layers] at h
  split_ifs at h
  split at h
  · exact Except.noConfusion h
  · split at h
    · exact Except.noConfusion h
    · split at h
      · exact Except.noConfusion h
      · split at h
        · exact Except.noConfusion h
        · injection h with h
          subst h
          exact ⟨rfl, rfl, rfl⟩

/-- The size-1 graph of the replication witnesses. -/
def c1g : GraphModel :=
  { size := 1, base_degree := 1, exp_degree := 0,
    base_parents := fun _ => [0], expanded_parents := fun _ => [] }

def c6hcol : List Nat → Fr := fun _ => 0

def c6h2 : Fr → Fr → Fr := fun a b => a + b

def c6data : List Nat := List.replicate 32 0

/-- The concrete replication output of the commitment witness. -/
def c6out : ReplicateOutput :=
  match transform_and_replicate_layers hashW c6hcol c6h2 c6h2 c1g 1 c2rid
      c6data none with
  | .ok o => o
  | .error _ =>
      { replica := [],
        tau := { comm_d := 0, comm_r := 0 },
        p_aux := { comm_c := 0, comm_r_last := 0 },
        t_aux := { encodings := [],
                   tree_c := { leaves := [], root := 0 },
                   tree_d := { leaves := [], root := 0 },
                   tree_r_last := { leaves := [], root := 0 } } }

/-- Witness for C6 on a concrete one-node replication. -/
theorem replicate_commitments_consistent_witness :
    c6out.tau.comm_r = c6h2 c6out.p_aux.comm_c c6out.p_aux.comm_r_last ∧
    c6out.p_aux.comm_c = c6out.t_aux.tree_c.root ∧
    c6out.p_aux.comm_r_last = c6out.t_aux.tree_r_last.root :=
  replicate_commitments_consistent hashW c6hcol c6h2 c6h2 c1g 1 c2rid c6data
    none c6out rfl

/-! ### Claim C5 -/

lemma parents_data_go_const (f : Nat → Except RErr Fr) :
    ∀ (l : List Nat) (i : Nat),
      parents_data_go (fun _ p => f p) i l = l.mapM f := by
  intro l
  induction l with
  | nil => intro i; rfl
  | cons p ps ih =>
      intro i
      rw [List.mapM_cons]
      show (match f p with
        | Except.error e => Except.error e
        | Except.ok v => (parents_data_go (fun _ p => f p) (i + 1) ps).map
            (fun rest => v :: rest)) = _
      cases hf : f p with
      | error e => rfl
      | ok v =>
          rw [ih (i + 1)]
          cases ps.mapM f <;> rfl

lemma parents_data_go_congr (f f' : Nat → Nat → Except RErr Fr) :
    ∀ (l : List Nat) (i : Nat), (∀ j p, i ≤ j → j < i + l.length → f j p = f' j p) →
      parents_data_go f i l = parents_data_go f' i l := by
  intro l
  induction l with
  | nil => intro i _; rfl
  | cons p ps ih =>
      intro i hfe
      show (match f i p with
        | Except.error e => Except.error e
        | Except.ok v => (parents_data_go f (i + 1) ps).map (fun rest => v :: rest)) =
        (match f' i p with
        | Except.error e => Except.error e
        | Except.ok v => (parents_data_go f' (i + 1) ps).map (fun rest => v :: rest))
      rw [hfe i p (by omega) (by simp), ih (i + 1)
        (fun j q hj1 hj2 => hfe j q (by omega) (by simp at hj2 ⊢; omega))]

lemma parents_data_go_append (f : Nat → Nat → Except RErr Fr) :
    ∀ (l1 l2 : List Nat) (i : Nat),
      parents_data_go f i (l1 ++ l2) =
        (parents_data_go f i l1) >>= fun a =>
          (parents_data_go f (i + l1.length) l2) >>= fun b => pure (a ++ b) := by
  intro l1
  induction l1 with
  | nil =>
      intro l2 i
      simp only [List.nil_append, List.length_nil, Nat.add_zero]
      cases h : parents_data_go f i l2 with
      | error e => rfl
      | ok b => rfl
  | cons p ps ih =>
      intro l2 i
      show (match f i p with
        | Except.error e => Except.error e
        | Except.ok v => (parents_data_go f (i + 1) (ps ++ l2)).map
            (fun rest => v :: rest)) =
        (match f i p with
          | Except.error e => Except.error e
          | Except.ok v => (parents_data_go f (i + 1) ps).map
              (fun rest => v :: rest)) >>= fun a =>
          (parents_data_go f (i + (ps.length + 1)) l2) >>= fun b => pure (a ++ b)
      cases hf : f i p with
      | error e => rfl
      | ok v =>
          rw [ih l2 (i + 1),
            show i + 1 + ps.length = i + (ps.length + 1) from by omega]
          cases parents_data_go f (i + 1) ps <;>
            cases parents_data_go f (i + (ps.length + 1)) l2 <;> rfl

lemma except_bind_ok_inv {ε α β : Type} (x : Except ε α) (f : α → Except ε β)
    (b : β) (h : x >>= f = .ok b) : ∃ a, x = .ok a ∧ f a = .ok b := by
  cases x with
  | error e => exact Except.noConfusion h
  | ok a => exact ⟨a, rfl, h⟩

lemma encoding_proof_at_some_inv (verify : EncodingProofM → Fr → Option Fr → Bool)
    (pred : Nat → Nat → Bool) (g : GraphModel) (encs : List (List Nat))
    (layers ci c layer : Nat) (cd crl : Fr) (cx : List Fr) (ep : EncodingProofM)
    (h : encoding_proof_at verify pred g encs layers ci c cd crl cx layer =
      .ok (some ep)) :
    pred layer ci = true ∧ parents_data g encs layer c = .ok ep.parents_data ∧
      ep.node = c := by
  rw [encoding_proof_at] at h
  by_cases hp : pred layer ci = false
  · rw [if_pos hp] at h
    injection h with h
    exact Option.noConfusion h
  · rw [if_neg hp] at h
    cases hpd : parents_data g encs layer c with
    | error e =>
        rw [hpd] at h
        exact Except.noConfusion h
    | ok pd =>
        simp only [hpd] at h
        split at h <;> split at h <;>
          first
            | (injection h with h
               injection h with h
               subst h
               exact ⟨by simpa using hp, rfl, rfl⟩)
            | exact Except.noConfusion h

lemma mapM_encoding_proof_mem (verify : EncodingProofM → Fr → Option Fr → Bool)
    (pred : Nat → Nat → Bool) (g : GraphModel) (encs : List (List Nat))
    (layers ci c : Nat) (cd crl : Fr) (cx : List Fr) :
    ∀ (L : List Nat) (eps : List (Option EncodingProofM)),
      L.mapM (encoding_proof_at verify pred g encs layers ci c cd crl cx) =
        .ok eps →
      ∀ ep : EncodingProofM, some ep ∈ eps → ∃ l ∈ L,
        pred l ci = true ∧ parents_data g encs l c = .ok ep.parents_data ∧
          ep.node = c := by
  intro L
  induction L with
  | nil =>
      intro eps h ep hmem
      injection h with h
      subst h
      exact absurd hmem (List.not_mem_nil _)
  | cons a L ih =>
      intro eps h ep hmem
      rw [List.mapM_cons] at h
      obtain ⟨o, ho, h⟩ := except_bind_ok_inv _ _ _ h
      obtain ⟨rest, hrest, h⟩ := except_bind_ok_inv _ _ _ h
      injection h with h
      subst h
      rcases List.mem_cons.mp hmem with heq | hmem2
      · subst heq
        exact ⟨a, List.mem_cons_self a L,
          encoding_proof_at_some_inv verify pred g encs layers ci c a cd crl cx
            ep ho⟩
      · obtain ⟨l, hl, hrest2⟩ := ih rest hrest ep hmem2
        exact ⟨l, List.mem_cons_of_mem a hl, hrest2⟩

/-- Claim C5: the parents_data of prove_layers (lines 144-170) consists, on
layer 1, of exactly the base-parent labels at layer 1 in base-parent order;
on a layer l ≥ 2 it follows the order of graph.parents(c), its first
d_base entries being the base parents' labels at layer l and the remaining
d_exp entries the expander parents' labels at layer l-1; and every
EncodingProof of a returned proof carries the challenged node together with
the parents_data of some included layer. -/
theorem encoding_proof_parents_order
    (verify : EncodingProofM → Fr → Option Fr → Bool) (pred : Nat → Nat → Bool)
    (h2 : Fr → Fr → Fr) (g : GraphModel) (t_aux : TemporaryAuxM)
    (layers ci c : Nat) (hwf : g.WF) :
    (parents_data g t_aux.encodings 1 c =
      (g.base_parents c).mapM (domain_node_at_layer t_aux.encodings 1)) ∧
    (∀ l, 2 ≤ l →
      parents_data g t_aux.encodings l c =
        (g.base_parents c).mapM (domain_node_at_layer t_aux.encodings l) >>=
          fun bs =>
        (g.expanded_parents c).mapM
            (domain_node_at_layer t_aux.encodings (l - 1)) >>= fun es =>
        pure (bs ++ es)) ∧
    (∀ p, prove_challenge verify pred h2 g t_aux layers ci c = .ok p →
      ∀ ep ∈ p.encoding_proofs, ep.node = c ∧
        ∃ l, 1 ≤ l ∧ l ≤ layers ∧ pred l ci = true ∧
          parents_data g t_aux.encodings l c = .ok ep.parents_data) := by
  refine ⟨?_, ?_, ?_⟩
  · rw [parents_data, if_pos rfl, parents_data_go_const]
  · intro l hl
    rw [parents_data, if_neg (by omega), GraphModel.parents,
      parents_data_go_append]
    have hD := (hwf c).1
    have hbase : parents_data_go
        (fun i p => if i < g.base_degree then
          domain_node_at_layer t_aux.encodings l p
        else domain_node_at_layer t_aux.encodings (l - 1) p) 0
          (g.base_parents c) =
        (g.base_parents c).mapM (domain_node_at_layer t_aux.encodings l) := by
      rw [parents_data_go_congr _
          (fun _ p => domain_node_at_layer t_aux.encodings l p)
          (g.base_parents c) 0 (fun j p _ hj => if_pos (by omega)),
        parents_data_go_const]
    have hexp : parents_data_go
        (fun i p => if i < g.base_degree then
          domain_node_at_layer t_aux.encodings l p
        else domain_node_at_layer t_aux.encodings (l - 1) p)
          (0 + (g.base_parents c).length) (g.expanded_parents c) =
        (g.expanded_parents c).mapM
          (domain_node_at_layer t_aux.encodings (l - 1)) := by
      rw [parents_data_go_congr _
          (fun _ p => domain_node_at_layer t_aux.encodings (l - 1) p)
          (g.expanded_parents c) (0 + (g.base_parents c).length)
          (fun j p hj _ => if_neg (by omega)),
        parents_data_go_const]
    simp only [hbase, hexp]
  · intro p hp
    simp only [prove_challenge] at hp
    split_ifs at hp
    cases hcx : column_proof h2 t_aux.encodings t_aux.tree_c c with
    | error e =>
        rw [hcx] at hp
        exact Except.noConfusion hp
    | ok c_x =>
        simp only [hcx] at hp
        cases hdrg : (g.base_parents c).mapM
            (column_proof h2 t_aux.encodings t_aux.tree_c) with
        | error e =>
            rw [hdrg] at hp
            exact Except.noConfusion hp
        | ok drg =>
            simp only [hdrg] at hp
            cases hexp : (g.expanded_parents c).mapM
                (column_proof h2 t_aux.encodings t_aux.tree_c) with
            | error e =>
                rw [hexp] at hp
                exact Except.noConfusion hp
            | ok expc =>
                simp only [hexp] at hp
                cases hloop : encoding_proofs_loop verify pred g
                    t_aux.encodings layers ci c
                    (gen_proof h2 t_aux.tree_d c).leaf
                    (gen_proof h2 t_aux.tree_r_last c).leaf c_x.column with
                | error e =>
                    rw [hloop] at hp
                    exact Except.noConfusion hp
                | ok eps =>
                    simp only [hloop] at hp
                    injection hp with hp
                    subst hp
                    intro ep hep
                    simp only [List.mem_filterMap, id] at hep
                    obtain ⟨o, ho, rfl⟩ := hep
                    rw [encoding_proofs_loop] at hloop
                    obtain ⟨l, hlmem, hpred, hpd, hnode⟩ :=
                      mapM_encoding_proof_mem verify pred g t_aux.encodings
                        layers ci c _ _ c_x.column _ eps hloop ep ho
                    obtain ⟨j, hj, rfl⟩ := List.mem_map.mp hlmem
                    exact ⟨hnode, j + 1, by omega,
                      by have := List.mem_range.mp hj; omega, hpred, hpd⟩

/-- A graph with one base and one expander parent per node. -/
def c5g : GraphModel :=
  { size := 2, base_degree := 1, exp_degree := 1,
    base_parents := fun _ => [0], expanded_parents := fun _ => [1] }

/-- A TemporaryAux with two layers of two zero labels. -/
def c5taux : TemporaryAuxM :=
  { encodings := [List.replicate 64 0, List.replicate 64 0],
    tree_c := { leaves := [0, 0], root := 0 },
    tree_d := { leaves := [0, 0], root := 0 },
    tree_r_last := { leaves := [0, 0], root := 0 } }

/-- Witness for C5 at layer 2 of a concrete two-layer stack. -/
theorem encoding_proof_parents_order_witness :
    parents_data c5g c5taux.encodings 2 1 =
      (c5g.base_parents 1).mapM (domain_node_at_layer c5taux.encodings 2) >>=
        fun bs =>
      (c5g.expanded_parents 1).mapM (domain_node_at_layer c5taux.encodings 1) >>=
        fun es =>
      pure (bs ++ es) :=
  (encoding_proof_parents_order c3verify c3pred c3h2 c5g c5taux 2 0 1
    (fun _ => ⟨rfl, rfl⟩)).2.1 2 (by omega)

/-! ### Claim C1 -/

lemma leVal_leBytes (n v : Nat) : leVal (leBytes n v) = v % 256 ^ n := by
  induction n generalizing v with
  | zero => simp [leBytes, leVal, Nat.mod_one]
  | succ n ih =>
      rw [leBytes, leVal, ih, pow_succ, mul_comm (256 ^ n) 256, Nat.mod_mul]

lemma leBytes_leVal (l : List Nat) (n : Nat) (hn : l.length = n)
    (hb : ∀ b ∈ l, b < 256) : leBytes n (leVal l) = l := by
  induction l generalizing n with
  | nil => subst hn; rfl
  | cons b bs ih =>
      subst hn
      rw [List.length_cons, leBytes, leVal]
      have hblt : b < 256 := hb b (List.mem_cons_self b bs)
      congr 1
      · rw [Nat.add_mul_mod_self_left]
        exact Nat.mod_eq_of_lt hblt
      · rw [Nat.add_mul_div_left b _ (by omega), Nat.div_eq_of_lt hblt,
          Nat.zero_add]
        exact ih bs.length rfl (fun x hx => hb x (List.mem_cons_of_mem b hx))

lemma frToBytes_length (x : Fr) : (frToBytes x).length = 32 :=
  leBytes_length 32 x.val

lemma frModulus_lt_pow : frModulus < 256 ^ 32 := by decide

lemma tryFromBytes_frToBytes (x : Fr) : tryFromBytes (frToBytes x) = some x := by
  have hval : leVal (frToBytes x) = x.val := by
    rw [frToBytes, leVal_leBytes]
    exact Nat.mod_eq_of_lt (lt_trans (ZMod.val_lt x) frModulus_lt_pow)
  rw [tryFromBytes,
    if_pos ⟨frToBytes_length x, by rw [hval]; exact ZMod.val_lt x⟩, hval]
  exact congrArg some (ZMod.natCast_rightInverse x)

lemma tryFromBytes_some_inv (b : List Nat) (x : Fr)
    (h : tryFromBytes b = some x) :
    b.length = 32 ∧ leVal b < frModulus ∧ x = ((leVal b : Nat) : Fr) := by
  rw [tryFromBytes] at h
  split_ifs at h with hc
  injection h with h
  exact ⟨hc.1, hc.2, h.symm⟩

lemma frToBytes_natCast (l : List Nat) (h32 : l.length = 32)
    (hb : ∀ b ∈ l, b < 256) (hlt : leVal l < frModulus) :
    frToBytes ((leVal l : Nat) : Fr) = l := by
  rw [frToBytes, ZMod.val_natCast, Nat.mod_eq_of_lt hlt]
  exact leBytes_leVal l 32 h32 hb

lemma decode_encode_chunks : ∀ (ks : List Fr) (data enc : List Nat),
    data.length = NODE_SIZE * ks.length → (∀ b ∈ data, b < 256) →
    encode_chunks ks data = .ok enc → decode_chunks ks enc = .ok data := by
  intro ks
  induction ks with
  | nil =>
      intro data enc _ _ h
      injection h with h
      subst h
      rfl
  | cons k ks ih =>
      intro data enc hlen hb h
      rw [encode_chunks] at h
      cases htf : tryFromBytes (data.take NODE_SIZE) with
      | none => rw [htf] at h; exact Except.noConfusion h
      | some d =>
          rw [htf] at h
          cases henc : encode_chunks ks (data.drop NODE_SIZE) with
          | error e =>
              rw [henc] at h
              exact Except.noConfusion h
          | ok rest =>
              rw [henc] at h
              injection h with h
              subst h
              show decode_chunks (k :: ks) (frToBytes (encode k d) ++ rest) =
                Except.ok data
              obtain ⟨h32, hlt, hd⟩ := tryFromBytes_some_inv _ _ htf
              have hrec : decode_chunks ks rest = .ok (data.drop NODE_SIZE) :=
                ih (data.drop NODE_SIZE) rest
                  (by rw [List.length_drop, hlen, List.length_cons]
                      simp only [NODE_SIZE]
                      ring_nf
                      omega)
                  (fun b hbmem => hb b (List.mem_of_mem_drop hbmem)) henc
              rw [decode_chunks,
                List.take_left'
                  (show (frToBytes (encode k d)).length = NODE_SIZE from
                    frToBytes_length _),
                tryFromBytes_frToBytes,
                List.drop_left'
                  (show (frToBytes (encode k d)).length = NODE_SIZE from
                    frToBytes_length _),
                hrec]
              have hdec : decode k (encode k d) = d := by
                rw [decode, encode, add_sub_cancel_left]
              have hchunk : frToBytes d = data.take NODE_SIZE := by
                rw [hd]
                exact frToBytes_natCast _ h32
                  (fun b hbmem => hb b (List.mem_of_mem_take hbmem)) hlt
              show Except.ok (frToBytes (decode k (encode k d)) ++
                data.drop NODE_SIZE) = Except.ok data
              rw [hdec, hchunk, List.take_append_drop]

lemma layer_keys_length (lastLayer : List Nat) (n : Nat) :
    (layer_keys lastLayer n).length = n := by
  simp [layer_keys]

/-- Claim C1: replicating a data buffer (transform_and_replicate_layers) and
then extracting the produced replica (extract_and_invert_transform_layers)
with the same graph, replica id and layer count returns a buffer equal to
the original data, for every replication that succeeds. -/
theorem replicate_extract_roundtrip (hash : List Nat → List Nat)
    (hcol : List Nat → Fr) (h2tree hash2 : Fr → Fr → Fr) (g : GraphModel)
    (layers : Nat) (rid data : List Nat) (data_tree : Option MerkleTreeM)
    (out : ReplicateOutput) (hb : ∀ b ∈ data, b < 256)
    (h : transform_and_replicate_layers hash hcol h2tree hash2 g layers rid
      data data_tree = .ok out) :
    extract_and_invert_transform_layers hash g layers rid out.replica =
      .ok data := by
  simp only [transform_and_replicate_layers] at h
  split_ifs at h with hlen hl0
  cases htd : (match data_tree with
      | some t => Except.ok t
      | none => build_tree h2tree data) with
  | error e => rw [htd] at h; exact Except.noConfusion h
  | ok tree_d =>
      simp only [htd] at h
      cases henc : encode_chunks
          (layer_keys ((generate_layers hash g rid layers).getLastD [])
            g.size) data with
      | error e => rw [henc] at h; exact Except.noConfusion h
      | ok replica =>
          simp only [henc] at h
          cases hrl : build_tree h2tree replica with
          | error e => rw [hrl] at h; exact Except.noConfusion h
          | ok trl =>
              simp only [hrl] at h
              cases htc : build_tree h2tree
                  (column_bytes hcol (generate_layers hash g rid layers)
                    g.size) with
              | error e => rw [htc] at h; exact Except.noConfusion h
              | ok tc =>
                  simp only [htc] at h
                  injection h with h
                  subst h
                  rw [extract_and_invert_transform_layers, if_neg hl0]
                  exact decode_encode_chunks _ data replica
                    (by push_neg at hlen
                        rw [layer_keys_length, Nat.mul_comm NODE_SIZE g.size,
                          hlen])
                    hb henc

/-- Witness for C1 on a concrete one-node replication of 32 zero bytes. -/
theorem replicate_extract_roundtrip_witness :
    extract_and_invert_transform_layers hashW c1g 1 c2rid c6out.replica =
      .ok c6data :=
  replicate_extract_roundtrip hashW c6hcol c6h2 c6h2 c1g 1 c2rid c6data none
    c6out
    (fun b hbm => by
      simp [c6data, List.eq_of_mem_replicate hbm])
    rfl

/-! ### Claim C7 -/

lemma agree_below_slice (enc1 enc2 : List Nat) (k p : Nat)
    (hag : ∀ j, j < k → enc1[j]? = enc2[j]?)
    (hp : p * NODE_SIZE + NODE_SIZE ≤ k) :
    data_at_node enc1 p = data_at_node enc2 p := by
  apply List.ext_getElem?
  intro n
  rw [data_at_node, data_at_node, List.getElem?_take, List.getElem?_take]
  by_cases hn : n < NODE_SIZE
  · rw [if_pos hn, if_pos hn, List.getElem?_drop, List.getElem?_drop]
    exact hag _ (by simp only [NODE_SIZE] at hp hn ⊢; omega)
  · rw [if_neg hn, if_neg hn]

lemma blake_label_input_agree (g : GraphModel) (rid : List Nat) (node : Nat)
    (enc1 enc2 : List Nat) (expd : Option (List Nat))
    (hpar : 0 < node → ∀ p ∈ (g.parents node).take g.base_degree,
      p * NODE_SIZE + NODE_SIZE ≤ node * NODE_SIZE)
    (hag : ∀ j, j < node * NODE_SIZE → enc1[j]? = enc2[j]?) :
    blake_label_input g rid node enc1 expd =
      blake_label_input g rid node enc2 expd := by
  simp only [blake_label_input]
  by_cases h0 : 0 < node
  · rw [if_pos h0, if_pos h0]
    have hmap : ((g.parents node).take g.base_degree).map (data_at_node enc1) =
        ((g.parents node).take g.base_degree).map (data_at_node enc2) :=
      List.map_congr_left (fun p hp =>
        agree_below_slice enc1 enc2 (node * NODE_SIZE) p hag (hpar h0 p hp))
    rw [hmap]
  · rw [if_neg h0, if_neg h0]

lemma store_label_agree (enc1 enc2 h : List Nat) (node L : Nat)
    (h1 : enc1.length = L) (h2 : enc2.length = L)
    (hbnd : node * NODE_SIZE + NODE_SIZE ≤ L) (hh : h.length = NODE_SIZE)
    (hag : ∀ j, j < node * NODE_SIZE → enc1[j]? = enc2[j]?) :
    ∀ j, j < node * NODE_SIZE + NODE_SIZE →
      (store_label enc1 node h)[j]? = (store_label enc2 node h)[j]? := by
  intro j hj
  rw [store_label_eq enc1 h node (by omega) hh,
    store_label_eq enc2 h node (by omega) hh]
  simp only [NODE_SIZE] at hbnd hh hj hag ⊢
  have side : ∀ (enc : List Nat), enc.length = L →
      (enc.take (node * 32) ++ (mask_label h ++ enc.drop (node * 32 + 32)))[j]? =
        (if j < node * 32 then enc[j]? else (mask_label h)[j - node * 32]?) := by
    intro enc hlen
    have ht : (enc.take (node * 32)).length = node * 32 := by
      rw [List.length_take]
      omega
    rw [List.getElem?_append, ht]
    by_cases hlt : j < node * 32
    · rw [if_pos hlt, if_pos hlt, List.getElem?_take, if_pos hlt]
    · rw [if_neg hlt, if_neg hlt, List.getElem?_append,
        if_pos (by rw [mask_label_length, hh]; omega)]
  rw [List.append_assoc, List.append_assoc, side enc1 h1, side enc2 h2]
  by_cases hlt : j < node * 32
  · rw [if_pos hlt, if_pos hlt]
    exact hag j hlt
  · rw [if_neg hlt, if_neg hlt]

lemma pass_nodes_agree (hash : List Nat → List Nat) (g : GraphModel)
    (rid : List Nat) (expd : Option (List Nat))
    (hhash : ∀ i, (hash i).length = NODE_SIZE) (hwf : g.WF)
    (hbb : g.BaseBelow) :
    ∀ (rem node : Nat) (enc1 enc2 : List Nat),
      enc1.length = g.size * NODE_SIZE → enc2.length = g.size * NODE_SIZE →
      node + rem ≤ g.size →
      (∀ j, j < node * NODE_SIZE → enc1[j]? = enc2[j]?) →
      ∀ j, j < (node + rem) * NODE_SIZE →
        (pass_nodes hash g rid expd enc1 node rem)[j]? =
          (pass_nodes hash g rid expd enc2 node rem)[j]? := by
  intro rem
  induction rem with
  | zero =>
      intro node enc1 enc2 _ _ _ hag j hj
      exact hag j (by simpa using hj)
  | succ rem ih =>
      intro node enc1 enc2 h1 h2 hle hag j hj
      have hpar : 0 < node → ∀ p ∈ (g.parents node).take g.base_degree,
          p * NODE_SIZE + NODE_SIZE ≤ node * NODE_SIZE := by
        intro h0 p hp
        rw [GraphModel.parents, List.take_left' ((hwf node).1)] at hp
        have hplt : p < node := hbb node h0 p hp
        simp only [NODE_SIZE]
        omega
      have hinput : blake_label_input g rid node enc1 expd =
          blake_label_input g rid node enc2 expd :=
        blake_label_input_agree g rid node enc1 enc2 expd hpar hag
      have hgen : ∀ j2, j2 < (node + 1) * NODE_SIZE →
          (generate_node hash g rid expd enc1 node)[j2]? =
            (generate_node hash g rid expd enc2 node)[j2]? := by
        intro j2 hj2
        rw [generate_node, generate_node, hinput]
        exact store_label_agree enc1 enc2 _ node (g.size * NODE_SIZE) h1 h2
          (by simp only [NODE_SIZE] at *; omega) (hhash _) hag j2
          (by simp only [NODE_SIZE] at *; omega)
      show (pass_nodes hash g rid expd
          (generate_node hash g rid expd enc1 node) (node + 1) rem)[j]? = _
      exact ih (node + 1) _ _
        (generate_node_length hash g rid expd hhash enc1 node h1 (by omega))
        (generate_node_length hash g rid expd hhash enc2 node h2 (by omega))
        (by omega) hgen j
        (by simp only [NODE_SIZE] at hj ⊢; omega)

lemma layer_pass_agree (hash : List Nat → List Nat) (g : GraphModel)
    (rid : List Nat) (expd : Option (List Nat))
    (hhash : ∀ i, (hash i).length = NODE_SIZE) (hwf : g.WF)
    (hbb : g.BaseBelow) (enc1 enc2 : List Nat)
    (h1 : enc1.length = g.size * NODE_SIZE)
    (h2 : enc2.length = g.size * NODE_SIZE) :
    layer_pass hash g rid expd enc1 = layer_pass hash g rid expd enc2 := by
  apply List.ext_getElem?
  intro j
  by_cases hj : j < g.size * NODE_SIZE
  · exact pass_nodes_agree hash g rid expd hhash hwf hbb g.size 0 enc1 enc2
      h1 h2 (by omega) (fun _ hcon => absurd hcon (by omega)) j
      (by simpa using hj)
  · rw [List.getElem?_eq_none, List.getElem?_eq_none]
    · rw [layer_pass_length hash g rid expd hhash enc2 h2]
      omega
    · rw [layer_pass_length hash g rid expd hhash enc1 h1]
      omega

/-- Claim C7: label generation is deterministic.  For a fixed graph, replica
id and layer count, generate_layers is a pure function of its arguments and,
more strongly, two runs of the layer loop started from buffers of arbitrary
initial contents (of the correct size) produce byte-identical layer stacks:
every buffer cell is written before it is ever read, so nothing of the
initial state leaks into any layer. -/
theorem generate_layers_deterministic (hash : List Nat → List Nat)
    (g : GraphModel) (rid : List Nat) (layers : Nat) (init1 init2 : List Nat)
    (hhash : ∀ i, (hash i).length = NODE_SIZE) (hwf : g.WF)
    (hbb : g.BaseBelow) (h1 : init1.length = g.size * NODE_SIZE)
    (h2 : init2.length = g.size * NODE_SIZE) :
    generate_layers_aux hash g rid layers init1 none =
      generate_layers_aux hash g rid layers init2 none ∧
    generate_layers hash g rid layers =
      generate_layers_aux hash g rid layers init1 none := by
  have main : ∀ (e1 e2 : List Nat), e1.length = g.size * NODE_SIZE →
      e2.length = g.size * NODE_SIZE →
      generate_layers_aux hash g rid layers e1 none =
        generate_layers_aux hash g rid layers e2 none := by
    intro e1 e2 he1 he2
    cases layers with
    | zero => rfl
    | succ n =>
        show layer_pass hash g rid none e1 ::
            generate_layers_aux hash g rid n (layer_pass hash g rid none e1)
              (some (layer_pass hash g rid none e1)) = _
        rw [layer_pass_agree hash g rid none hhash hwf hbb e1 e2 he1 he2]
        rfl
  exact ⟨main init1 init2 h1 h2,
    main (List.replicate (g.size * NODE_SIZE) 0) init1 (by simp) h1⟩

/-- The graph of the determinism witness: node x has base parent x-1. -/
def c7g : GraphModel :=
  { size := 2, base_degree := 1, exp_degree := 0,
    base_parents := fun x => [x - 1], expanded_parents := fun _ => [] }

/-- Witness for C7: one layer over two nodes, started from an all-zero and
an all-one buffer, produces the same stack. -/
theorem generate_layers_deterministic_witness :
    generate_layers_aux hashW c7g c2rid 1 (List.replicate 64 0) none =
      generate_layers_aux hashW c7g c2rid 1 (List.replicate 64 1) none :=
  (generate_layers_deterministic hashW c7g c2rid 1 (List.replicate 64 0)
    (List.replicate 64 1) (fun _ => by simp [hashW, NODE_SIZE])
    (fun _ => ⟨rfl, rfl⟩)
    (fun x hx p hp => by
      simp only [c7g, List.mem_singleton] at hp
      subst hp
      omega)
    (by decide) (by decide)).1

end FilProofs
